import Mathlib

/-!
Shallow embedding of `src/compare_records.py`, a two-way key-based
reconciliation between a primary database export (DB) and a CDISC export.
Cells are modelled as `String` (the script reads with `dtype=str` and
applies `fillna("")`, so every cell the helpers see is a string; the
`x is None` branch of `norm` is therefore subsumed by the empty string).
Whitespace is modelled as the ASCII whitespace class matched by Python's
`str.strip` and the regex `\s` on ASCII data.
-/

namespace CompareRecords

/-- The whitespace class used by `str.strip()` and `re.sub(r"\s+", " ", s)`
(ASCII fragment). -/
def isWs (c : Char) : Bool :=
  c = ' ' || c = '\t' || c = '\n' || c = '\r' || c = '\x0b' || c = '\x0c'

/-- One left-to-right sweep implementing `re.sub(r"\s+", " ", s)`:
`prevWs` records whether we are inside a whitespace run whose single
replacement space has already been emitted. -/
def collapseAux : Bool → List Char → List Char
  | _, [] => []
  | prevWs, c :: rest =>
    if isWs c then
      if prevWs then collapseAux true rest
      else ' ' :: collapseAux true rest
    else c :: collapseAux false rest

/-- `re.sub(r"\s+", " ", s)`: every maximal run of whitespace becomes one
space. -/
def collapseWs (l : List Char) : List Char := collapseAux false l

/-- Remove trailing whitespace (the right half of `str.strip()`). -/
def dropTrailWs : List Char → List Char
  | [] => []
  | c :: rest =>
    let r := dropTrailWs rest
    if r = [] then (if isWs c then [] else [c]) else c :: r

/-- `str.strip()`: remove leading and trailing whitespace. -/
def stripWs (l : List Char) : List Char := dropTrailWs (l.dropWhile isWs)

/-- `norm` from the source: strip, then collapse internal whitespace runs
to single spaces. -/
def norm (s : String) : String := String.mk (collapseWs (stripWs s.data))

/-- `s.endswith(".0")`: the last two characters are '.' then '0'. -/
def endsDotZero (l : List Char) : Bool := l.reverse.take 2 = ['0', '.']

/-- `norm_id` from the source: `norm`, then `s[:-2]` (drop the last two
characters) when the result ends with the literal suffix ".0". -/
def norm_id (s : String) : String :=
  let t := norm s
  if endsDotZero t.data then String.mk t.data.dropLast.dropLast else t

/-- No whitespace at the head. -/
def headNotWs (l : List Char) : Prop := ∀ c, l.head? = some c → isWs c = false

/-- No whitespace at the end. -/
def lastNotWs (l : List Char) : Prop := ∀ c, l.getLast? = some c → isWs c = false

/-- Every whitespace character is a plain space. -/
def wsOnlySpace (l : List Char) : Prop := ∀ c ∈ l, isWs c = true → c = ' '

/-- No two adjacent whitespace characters. -/
def noAdjWs (l : List Char) : Prop :=
  l.Chain' (fun a b => isWs a = true → isWs b = false)

/-- A row of either input table, restricted to the three columns the
reconciliation logic reads (all other columns are passed through
opaquely and never inspected). -/
structure Row where
  usubjid : String
  visit : String
  qscat : String
deriving DecidableEq, Repr

/-- The composite key: (normalized subject ID, normalized visit,
normalized full-name category). -/
abbrev Key := String × String × String

def DB_FILE : String := "CVN101_Data_07JAN2026.csv"

def CDISC_FILE : String := "CVN-101_AK.csv"

/-- The fixed CDISC short code to DB full-name category table. -/
def CDISC_QSCAT_TO_FULL : List (String × String) :=
  [("AIMS01", "Alberta Infant Motor Scale (AIMS)"),
   ("DEVM01", "CDC Developmental Milestones Checklist"),
   ("PRE1", "Pre-Examination Questionnaire"),
   ("HEAD01", "Measurement of Head Circumference"),
   ("GMFM88", "Gross Motor Function Measure 88-items (GMFM-88)"),
   ("HINE02", "Hammersmith Infant Neurological Examination, Section 2 (HINE-2)"),
   ("RSS01", "Response to Sensory Stimuli"),
   ("IMP01", "Infant Motor Profile (IMP)"),
   ("POST1", "Post Examination Questionnaire"),
   ("Bayley-4", "Bayley-4 Cognitive, Language and Motor"),
   ("TIMP1", "Test of Infant Motor Performance Screening Items (TIMPSI)"),
   ("Vineland-3 Comprehensive", "Vineland-3 Comprehensive Interview Form")]

/-- `CDISC_QSCAT_TO_FULL.get(short, "")`: exact, case-sensitive lookup,
empty string on a miss. -/
def mapCategory (short : String) : String :=
  ((CDISC_QSCAT_TO_FULL.find? (fun p => p.1 = short)).map Prod.snd).getD ""

/-- The composite key of a DB row (its QSCAT is already the full name). -/
def dbKey (r : Row) : Key := (norm_id r.usubjid, norm r.visit, norm r.qscat)

/-- The composite key of a CDISC row after short-to-full translation. -/
def cdiscKey (r : Row) : Key :=
  (norm_id r.usubjid, norm r.visit, mapCategory (norm r.qscat))

/-- `db_counts`: the groupby-size dictionary of the DB table, as a total
function (0 outside the index, matching `dict.get(key, 0)`). -/
def db_counts (db : List Row) (k : Key) : Nat := (db.map dbKey).count k

/-- `db_key_set`: the distinct composite keys of the DB table. -/
def db_key_set (db : List Row) : List Key := (db.map dbKey).dedup

/-- `missing_map`: the distinct normalized short codes that have no entry
in the category table. -/
def missing_map (cdisc : List Row) : List String :=
  ((cdisc.map (fun r => norm r.qscat)).filter (fun s => mapCategory s = "")).dedup

/-- `cdisc_ok`: the CDISC rows whose category code mapped successfully. -/
def cdisc_ok (cdisc : List Row) : List Row :=
  cdisc.filter (fun r => mapCategory (norm r.qscat) ≠ "")

/-- `cdisc_counts`: groupby-size over the mappable CDISC rows, as a total
function (0 outside the index). -/
def cdisc_counts (cdisc : List Row) (k : Key) : Nat :=
  ((cdisc_ok cdisc).map cdiscKey).count k

/-- `cdisc_key_set`: the distinct composite keys of the mappable CDISC
rows; also the iteration domain of pass 2. -/
def cdisc_key_set (cdisc : List Row) : List Key :=
  ((cdisc_ok cdisc).map cdiscKey).dedup

/-- One pass-1 output row: the original DB row plus the appended status,
count and comment columns (the normalization helper columns are dropped
before emission and are not part of the output). -/
structure Pass1Row where
  row : Row
  status : String
  cdiscRowCountForKey : Nat
  comment : String
deriving DecidableEq, Repr

/-- One pass-2 output row. -/
structure Pass2Row where
  usubjid : String
  visit : String
  qscatFull : String
  status : String
  cdiscRowCountForKey : Nat
  dbRowCountForKey : Nat
  comment : String
deriving DecidableEq, Repr

/-- The key fields a pass-2 row carries. -/
def pass2Key (p : Pass2Row) : Key := (p.usubjid, p.visit, p.qscatFull)

/-- The pass-1 body for one DB row: membership of its key in the CDISC
key set decides status, attached count and comment. -/
def pass1Row (cdisc : List Row) (r : Row) : Pass1Row :=
  let key := dbKey r
  if key ∈ cdisc_key_set cdisc then
    { row := r, status := "AVAILABLE_IN_CDISC",
      cdiscRowCountForKey := cdisc_counts cdisc key, comment := "FOUND_IN_CDISC" }
  else
    { row := r, status := "MISSING_IN_CDISC",
      cdiscRowCountForKey := 0, comment := "NO_MATCHING_CDISC_RECORD_KEY" }

/-- Pass 1 (DB to CDISC): one output row per DB input row, in order. -/
def db_to_cdisc_rows (db cdisc : List Row) : List Pass1Row :=
  db.map (pass1Row cdisc)

/-- The pass-2 body for one distinct CDISC key. -/
def pass2Row (db cdisc : List Row) (k : Key) : Pass2Row :=
  if k ∈ db_key_set db then
    { usubjid := k.1, visit := k.2.1, qscatFull := k.2.2,
      status := "AVAILABLE_IN_DB", cdiscRowCountForKey := cdisc_counts cdisc k,
      dbRowCountForKey := db_counts db k, comment := "FOUND_IN_DB" }
  else
    { usubjid := k.1, visit := k.2.1, qscatFull := k.2.2,
      status := "MISSING_IN_DB", cdiscRowCountForKey := cdisc_counts cdisc k,
      dbRowCountForKey := 0, comment := "NO_MATCHING_DB_RECORD_KEY" }

/-- Pass 2 (CDISC to DB): one output row per distinct key of the CDISC
index. -/
def cdisc_to_db_rows (db cdisc : List Row) : List Pass2Row :=
  (cdisc_key_set cdisc).map (pass2Row db cdisc)

/-- The warning-level log entries of a run: one entry listing the sorted
distinct unmapped codes when there are any, none otherwise. -/
def warnings (cdisc : List Row) : List String :=
  if missing_map cdisc = [] then []
  else ["Missing CDISC mappings for: " ++
        String.intercalate ", " (List.insertionSort (fun a b => a ≤ b) (missing_map cdisc))]

/-- An input table: its header columns and its parsed rows. -/
structure Table where
  columns : List String
  rows : List Row

/-- The three required columns, in the order the source checks them. -/
def requiredCols : List String := ["USUBJID", "VISIT", "QSCAT"]

def dbMissingMsg (col : String) : String :=
  "Missing column " ++ col ++ " in DB file: " ++ DB_FILE

def cdiscMissingMsg (col : String) : String :=
  "Missing column " ++ col ++ " in CDISC file: " ++ CDISC_FILE

/-- The schema validation loop: for each required column, check the DB
table then the CDISC table, aborting at the first miss. -/
def checkCols (db cdisc : Table) : List String → Except String Unit
  | [] => Except.ok ()
  | col :: rest =>
    if col ∈ db.columns then
      if col ∈ cdisc.columns then checkCols db cdisc rest
      else Except.error (cdiscMissingMsg col)
    else Except.error (dbMissingMsg col)

/-- Everything a completed run emits: the two output tables and the
warning log entries. -/
structure RunResult where
  pass1Out : List Pass1Row
  pass2Out : List Pass2Row
  warningsOut : List String
deriving DecidableEq, Repr

/-- `main`: schema validation, then the whole reconciliation.
`Except.error` models `SystemExit` (non-zero exit, nothing written);
`Except.ok` models a completed run with exit code zero. -/
def main (db cdisc : Table) : Except String RunResult :=
  match checkCols db cdisc requiredCols with
  | Except.error e => Except.error e
  | Except.ok _ =>
    Except.ok
      { pass1Out := db_to_cdisc_rows db.rows cdisc.rows,
        pass2Out := cdisc_to_db_rows db.rows cdisc.rows,
        warningsOut := warnings cdisc.rows }

/-- Concrete rows and tables used by the witness theorems. -/
def exR1 : Row := { usubjid := "SUBJ-001", visit := "V1", qscat := "Pre-Examination Questionnaire" }

def exR2 : Row := { usubjid := "SUBJ-001.0", visit := " V1 ", qscat := "Pre-Examination Questionnaire" }

def exR3 : Row := { usubjid := "SUBJ-003", visit := "V2", qscat := "Response to Sensory Stimuli" }

def exC1 : Row := { usubjid := "SUBJ-001.0", visit := "V1", qscat := "PRE1" }

def exC2 : Row := { usubjid := "SUBJ-002", visit := "V1", qscat := "UNKNOWN_CODE" }

def exDb : List Row := [exR1, exR2, exR3]

def exCdisc : List Row := [exC1, exC2]

def exKey : Key := ("SUBJ-001", "V1", "Pre-Examination Questionnaire")

def exDbTab : Table := { columns := ["USUBJID", "VISIT", "QSCAT", "EXTRA"], rows := exDb }

def exCdiscTab : Table := { columns := ["USUBJID", "VISIT", "QSCAT"], rows := exCdisc }

def exBadTab : Table := { columns := ["USUBJID", "QSCAT"], rows := exDb }


theorem collapseAux_cons_ws_true (a : Char) (t : List Char) (ha : isWs a = true) :
    collapseAux true (a :: t) = collapseAux true t := by
  simp [collapseAux, ha]

theorem collapseAux_cons_ws_false (a : Char) (t : List Char) (ha : isWs a = true) :
    collapseAux false (a :: t) = ' ' :: collapseAux true t := by
  simp [collapseAux, ha]

theorem collapseAux_cons_not_ws (b : Bool) (a : Char) (t : List Char)
    (ha : isWs a = false) : collapseAux b (a :: t) = a :: collapseAux false t := by
  cases b <;> simp [collapseAux, ha]

theorem dropTrailWs_cons_nil_ws (a : Char) (t : List Char)
    (hr : dropTrailWs t = []) (ha : isWs a = true) : dropTrailWs (a :: t) = [] := by
  simp [dropTrailWs, hr, ha]

theorem dropTrailWs_cons_nil_not_ws (a : Char) (t : List Char)
    (hr : dropTrailWs t = []) (ha : isWs a = false) : dropTrailWs (a :: t) = [a] := by
  simp [dropTrailWs, hr, ha]

theorem dropTrailWs_cons_ne_nil (a : Char) (t : List Char)
    (hr : dropTrailWs t ≠ []) : dropTrailWs (a :: t) = a :: dropTrailWs t := by
  simp only [dropTrailWs]
  rw [if_neg hr]

theorem headNotWs_dropWhile (l : List Char) : headNotWs (l.dropWhile isWs) := by
  induction l with
  | nil => intro c h; simp at h
  | cons a t ih =>
    intro c h
    rw [List.dropWhile_cons] at h
    by_cases ha : isWs a = true
    · rw [if_pos ha] at h; exact ih c h
    · rw [if_neg ha] at h
      simp only [List.head?_cons, Option.some.injEq] at h
      subst h; simpa using ha

theorem lastNotWs_dropTrailWs (l : List Char) : lastNotWs (dropTrailWs l) := by
  induction l with
  | nil => intro c h; simp [dropTrailWs] at h
  | cons a t ih =>
    intro c h
    by_cases hr : dropTrailWs t = []
    · by_cases ha : isWs a = true
      · rw [dropTrailWs_cons_nil_ws a t hr ha] at h; simp at h
      · rw [dropTrailWs_cons_nil_not_ws a t hr (by simpa using ha)] at h
        simp only [List.getLast?_singleton, Option.some.injEq] at h
        subst h; simpa using ha
    · rw [dropTrailWs_cons_ne_nil a t hr] at h
      obtain ⟨b, r, hbr⟩ := List.exists_cons_of_ne_nil hr
      rw [hbr, List.getLast?_cons_cons, ← hbr] at h
      exact ih c h

theorem head?_dropTrailWs (l : List Char) (c : Char)
    (h : (dropTrailWs l).head? = some c) : l.head? = some c := by
  cases l with
  | nil => simp [dropTrailWs] at h
  | cons a t =>
    by_cases hr : dropTrailWs t = []
    · by_cases ha : isWs a = true
      · rw [dropTrailWs_cons_nil_ws a t hr ha] at h; simp at h
      · rw [dropTrailWs_cons_nil_not_ws a t hr (by simpa using ha)] at h; simpa using h
    · rw [dropTrailWs_cons_ne_nil a t hr] at h; simpa using h

theorem headNotWs_stripWs (l : List Char) : headNotWs (stripWs l) :=
  fun c h => headNotWs_dropWhile l c (head?_dropTrailWs _ c h)

theorem lastNotWs_stripWs (l : List Char) : lastNotWs (stripWs l) :=
  lastNotWs_dropTrailWs _

theorem wsOnlySpace_collapseAux (l : List Char) :
    ∀ b : Bool, wsOnlySpace (collapseAux b l) := by
  induction l with
  | nil => intro b c hc; simp [collapseAux] at hc
  | cons a t ih =>
    intro b c hc hcw
    by_cases ha : isWs a = true
    · cases b with
      | true =>
        rw [collapseAux_cons_ws_true a t ha] at hc
        exact ih true c hc hcw
      | false =>
        rw [collapseAux_cons_ws_false a t ha] at hc
        rcases List.mem_cons.mp hc with h1 | h2
        · exact h1
        · exact ih true c h2 hcw
    · rw [collapseAux_cons_not_ws b a t (by simpa using ha)] at hc
      rcases List.mem_cons.mp hc with h1 | h2
      · subst h1; exact absurd hcw ha
      · exact ih false c h2 hcw

theorem headNotWs_collapseAux_true (l : List Char) : headNotWs (collapseAux true l) := by
  induction l with
  | nil => intro c h; simp [collapseAux] at h
  | cons a t ih =>
    intro c h
    by_cases ha : isWs a = true
    · rw [collapseAux_cons_ws_true a t ha] at h; exact ih c h
    · rw [collapseAux_cons_not_ws true a t (by simpa using ha)] at h
      simp only [List.head?_cons, Option.some.injEq] at h
      subst h; simpa using ha

theorem headNotWs_collapseWs (l : List Char) (hl : headNotWs l) :
    headNotWs (collapseWs l) := by
  cases l with
  | nil => intro c h; simp [collapseWs, collapseAux] at h
  | cons a t =>
    have ha : isWs a = false := hl a (by simp)
    intro c h
    rw [show collapseWs (a :: t) = collapseAux false (a :: t) from rfl,
      collapseAux_cons_not_ws false a t ha] at h
    simp only [List.head?_cons, Option.some.injEq] at h
    subst h; exact ha

theorem noAdjWs_collapseAux (l : List Char) : ∀ b : Bool, noAdjWs (collapseAux b l) := by
  induction l with
  | nil => intro b; simp [collapseAux, noAdjWs]
  | cons a t ih =>
    intro b
    by_cases ha : isWs a = true
    · cases b with
      | true => rw [collapseAux_cons_ws_true a t ha]; exact ih true
      | false =>
        rw [collapseAux_cons_ws_false a t ha]
        refine List.chain'_cons'.mpr ⟨?_, ih true⟩
        intro y hy _
        exact headNotWs_collapseAux_true t y (by simpa using hy)
    · rw [collapseAux_cons_not_ws b a t (by simpa using ha)]
      refine List.chain'_cons'.mpr ⟨?_, ih false⟩
      intro y _ haw
      exact absurd haw (by simpa using ha)

theorem collapseAux_ne_nil (l : List Char) (b : Bool)
    (hex : ∃ c ∈ l, isWs c = false) : collapseAux b l ≠ [] := by
  induction l generalizing b with
  | nil => obtain ⟨c, hc, _⟩ := hex; simp at hc
  | cons a t ih =>
    by_cases ha : isWs a = true
    · have hext : ∃ c ∈ t, isWs c = false := by
        obtain ⟨c, hc, hcw⟩ := hex
        rcases List.mem_cons.mp hc with h1 | h2
        · subst h1; rw [ha] at hcw; exact absurd hcw (by simp)
        · exact ⟨c, h2, hcw⟩
      cases b with
      | true => rw [collapseAux_cons_ws_true a t ha]; exact ih true hext
      | false => rw [collapseAux_cons_ws_false a t ha]; simp
    · rw [collapseAux_cons_not_ws b a t (by simpa using ha)]; simp

theorem getLast?_mem_of_eq (l : List Char) (c : Char) (h : l.getLast? = some c) :
    c ∈ l := by
  induction l with
  | nil => simp at h
  | cons a t ih =>
    cases t with
    | nil => simp at h; subst h; simp
    | cons b r =>
      rw [List.getLast?_cons_cons] at h
      exact List.mem_cons_of_mem a (ih h)

theorem lastNotWs_collapseAux (l : List Char) : ∀ b : Bool,
    lastNotWs l → lastNotWs (collapseAux b l) := by
  induction l with
  | nil => intro b _ c hc; simp [collapseAux] at hc
  | cons a t ih =>
    intro b hlast
    cases t with
    | nil =>
      have ha : isWs a = false := hlast a (by simp)
      intro c hc
      rw [collapseAux_cons_not_ws b a [] ha] at hc
      simp only [collapseAux, List.getLast?_singleton, Option.some.injEq] at hc
      subst hc; exact ha
    | cons x t' =>
      have hlt : lastNotWs (x :: t') := by
        intro c hc; exact hlast c (by rw [List.getLast?_cons_cons]; exact hc)
      have hlast_mem : ∃ c ∈ x :: t', isWs c = false := by
        cases hx : (x :: t').getLast? with
        | none => simp at hx
        | some d => exact ⟨d, getLast?_mem_of_eq _ d hx, hlt d hx⟩
      intro c hc
      by_cases ha : isWs a = true
      · cases b with
        | true =>
          rw [collapseAux_cons_ws_true a (x :: t') ha] at hc
          exact ih true hlt c hc
        | false =>
          rw [collapseAux_cons_ws_false a (x :: t') ha] at hc
          have hne : collapseAux true (x :: t') ≠ [] :=
            collapseAux_ne_nil _ true hlast_mem
          obtain ⟨y, r, hyr⟩ := List.exists_cons_of_ne_nil hne
          rw [hyr, List.getLast?_cons_cons, ← hyr] at hc
          exact ih true hlt c hc
      · rw [collapseAux_cons_not_ws b a (x :: t') (by simpa using ha)] at hc
        have hne : collapseAux false (x :: t') ≠ [] :=
          collapseAux_ne_nil _ false hlast_mem
        obtain ⟨y, r, hyr⟩ := List.exists_cons_of_ne_nil hne
        rw [hyr, List.getLast?_cons_cons, ← hyr] at hc
        exact ih false hlt c hc

theorem collapseAux_true_eq (l : List Char) (hl : headNotWs l) :
    collapseAux true l = collapseAux false l := by
  cases l with
  | nil => rfl
  | cons a t =>
    have ha : isWs a = false := hl a (by simp)
    rw [collapseAux_cons_not_ws true a t ha, collapseAux_cons_not_ws false a t ha]

theorem collapseWs_eq_self (l : List Char) (h1 : wsOnlySpace l) (h2 : noAdjWs l) :
    collapseWs l = l := by
  induction l with
  | nil => rfl
  | cons a t ih =>
    have h1t : wsOnlySpace t := fun c hc => h1 c (List.mem_cons_of_mem a hc)
    have h2' := List.chain'_cons'.mp h2
    have h2t : noAdjWs t := h2'.2
    by_cases ha : isWs a = true
    · have haspace : a = ' ' := h1 a (by simp) ha
      have hht : headNotWs t := by
        intro c hc
        exact h2'.1 c (by simpa using hc) ha
      rw [show collapseWs (a :: t) = collapseAux false (a :: t) from rfl,
        collapseAux_cons_ws_false a t ha, collapseAux_true_eq t hht,
        show collapseAux false t = collapseWs t from rfl, ih h1t h2t, haspace]
    · rw [show collapseWs (a :: t) = collapseAux false (a :: t) from rfl,
        collapseAux_cons_not_ws false a t (by simpa using ha),
        show collapseAux false t = collapseWs t from rfl, ih h1t h2t]

theorem dropWhile_eq_self_of_head (l : List Char) (hl : headNotWs l) :
    l.dropWhile isWs = l := by
  cases l with
  | nil => rfl
  | cons a t =>
    have ha : isWs a = false := hl a (by simp)
    rw [List.dropWhile_cons, if_neg (by simp [ha])]

theorem dropTrailWs_eq_self (l : List Char) (hl : lastNotWs l) : dropTrailWs l = l := by
  induction l with
  | nil => rfl
  | cons a t ih =>
    cases t with
    | nil =>
      have ha : isWs a = false := hl a (by simp)
      exact dropTrailWs_cons_nil_not_ws a [] rfl ha
    | cons x t' =>
      have hlt : lastNotWs (x :: t') := by
        intro c hc; exact hl c (by rw [List.getLast?_cons_cons]; exact hc)
      have ht : dropTrailWs (x :: t') = x :: t' := ih hlt
      rw [dropTrailWs_cons_ne_nil a (x :: t') (by rw [ht]; simp), ht]

theorem stripWs_eq_self (l : List Char) (h1 : headNotWs l) (h2 : lastNotWs l) :
    stripWs l = l := by
  rw [stripWs, dropWhile_eq_self_of_head l h1, dropTrailWs_eq_self _ h2]

theorem norm_data (s : String) : (norm s).data = collapseWs (stripWs s.data) := rfl

/-- C5: `norm` is idempotent: for every input value x,
`norm (norm x) = norm x`. -/
theorem norm_idempotent (s : String) : norm (norm s) = norm s := by
  have h1 : headNotWs (norm s).data :=
    headNotWs_collapseWs _ (headNotWs_stripWs s.data)
  have h2 : lastNotWs (norm s).data :=
    lastNotWs_collapseAux _ false (lastNotWs_stripWs s.data)
  have h3 : wsOnlySpace (norm s).data := wsOnlySpace_collapseAux _ false
  have h4 : noAdjWs (norm s).data := noAdjWs_collapseAux _ false
  show String.mk (collapseWs (stripWs (norm s).data)) = norm s
  rw [stripWs_eq_self _ h1 h2, collapseWs_eq_self _ h3 h4]

/-- C5 witness: idempotence evaluated at a concrete messy input. -/
theorem norm_idempotent_witness : norm (norm "  a \t b  ") = norm "  a \t b  " :=
  norm_idempotent "  a \t b  "

/-- C4 counterexample: the claim asserts `norm_id "123.00" = "123.0"`, but
the code only strips when the normalized string literally ends in ".0",
which "123.00" does not; the code leaves it unchanged. -/
theorem norm_id_claim_refuted : ¬ (norm_id "123.00" = "123.0") := by decide

/-- C4 (amended): `norm_id` strips the two-character suffix ".0" exactly
when the normalized value literally ends in ".0" (a single, non-recursive
strip); a value not ending in ".0", such as "123.00", is returned
unchanged: `norm_id "123.0" = "123"`, `norm_id "123.00" = "123.00"`, and
`norm_id "ABC" = "ABC"`. -/
theorem norm_id_strips_one_suffix :
    norm_id "123.0" = "123" ∧ norm_id "123.00" = "123.00" ∧
    norm_id "ABC" = "ABC" := by decide

theorem pass1Row_row (cdisc : List Row) (r : Row) : (pass1Row cdisc r).row = r := by
  simp only [pass1Row]
  split <;> rfl

theorem pass1Row_count_congr (cdisc : List Row) (r r2 : Row) (h : dbKey r = dbKey r2) :
    (pass1Row cdisc r).cdiscRowCountForKey = (pass1Row cdisc r2).cdiscRowCountForKey := by
  simp only [pass1Row]
  rw [h]
  split <;> rfl

theorem pass2Key_pass2Row (db cdisc : List Row) (k : Key) :
    pass2Key (pass2Row db cdisc k) = k := by
  simp only [pass2Row, pass2Key]
  split <;> rfl

/-- C1: pass 1 looks up each DB record's composite key in the CDISC key
set: the output row at the record's position gets status
AVAILABLE_IN_CDISC and the CDISC index count when the key is present, and
MISSING_IN_CDISC with count 0 when absent. -/
theorem pass1_row_status_by_membership (db cdisc : List Row) (i : Nat) (r : Row)
    (h : db[i]? = some r) :
    (db_to_cdisc_rows db cdisc)[i]? = some (pass1Row cdisc r) ∧
    (dbKey r ∈ cdisc_key_set cdisc →
      (pass1Row cdisc r).status = "AVAILABLE_IN_CDISC" ∧
      (pass1Row cdisc r).cdiscRowCountForKey = cdisc_counts cdisc (dbKey r)) ∧
    (dbKey r ∉ cdisc_key_set cdisc →
      (pass1Row cdisc r).status = "MISSING_IN_CDISC" ∧
      (pass1Row cdisc r).cdiscRowCountForKey = 0) := by
  refine ⟨?_, fun hm => ?_, fun hm => ?_⟩
  · rw [db_to_cdisc_rows, List.getElem?_map, h]; rfl
  · simp [pass1Row, hm]
  · simp [pass1Row, hm]

/-- C1 witness: on concrete data the first DB row is found in CDISC. -/
theorem pass1_row_status_by_membership_witness :
    (db_to_cdisc_rows exDb exCdisc)[0]? = some (pass1Row exCdisc exR1) ∧
    (pass1Row exCdisc exR1).status = "AVAILABLE_IN_CDISC" ∧
    (pass1Row exCdisc exR1).cdiscRowCountForKey = cdisc_counts exCdisc (dbKey exR1) :=
  have h := pass1_row_status_by_membership exDb exCdisc 0 exR1 (by decide)
  ⟨h.1, (h.2.1 (by decide)).1, (h.2.1 (by decide)).2⟩

/-- C3: every DB input record appears exactly once in the pass-1 output,
in the original input order, duplicates included, and any two output rows
sharing a composite key carry the same attached CDISC count. -/
theorem pass1_round_trip (db cdisc : List Row) :
    (db_to_cdisc_rows db cdisc).map Pass1Row.row = db ∧
    ∀ o1 ∈ db_to_cdisc_rows db cdisc, ∀ o2 ∈ db_to_cdisc_rows db cdisc,
      dbKey o1.row = dbKey o2.row →
      o1.cdiscRowCountForKey = o2.cdiscRowCountForKey := by
  constructor
  · rw [db_to_cdisc_rows, List.map_map]
    have hcomp : (Pass1Row.row ∘ pass1Row cdisc) = id :=
      funext fun r => pass1Row_row cdisc r
    rw [hcomp, List.map_id]
  · intro o1 h1 o2 h2 hk
    rw [db_to_cdisc_rows, List.mem_map] at h1 h2
    obtain ⟨r1, _, e1⟩ := h1
    obtain ⟨r2, _, e2⟩ := h2
    subst e1; subst e2
    rw [pass1Row_row cdisc r1, pass1Row_row cdisc r2] at hk
    exact pass1Row_count_congr cdisc r1 r2 hk

/-- C3 witness: on concrete data the output rows list the inputs in
order, and two rows sharing a key carry the same count. -/
theorem pass1_round_trip_witness :
    (db_to_cdisc_rows exDb exCdisc).map Pass1Row.row = exDb ∧
    (pass1Row exCdisc exR1).cdiscRowCountForKey =
      (pass1Row exCdisc exR2).cdiscRowCountForKey :=
  ⟨(pass1_round_trip exDb exCdisc).1,
   (pass1_round_trip exDb exCdisc).2 (pass1Row exCdisc exR1) (by decide)
     (pass1Row exCdisc exR2) (by decide) (by decide)⟩

theorem count_beq_bridge (l : List Key) (k : Key) :
    @List.count Key instBEqOfDecidableEq k l = l.count k := by
  rw [show @List.count Key instBEqOfDecidableEq k l
      = l.countP (fun j => decide (j = k)) from rfl,
    show l.count k = l.countP (fun j => j == k) from rfl]
  exact List.countP_congr (fun j _ => by by_cases h : j = k <;> simp [h])

theorem count_dedup_key (l : List Key) (k : Key) :
    l.dedup.count k = if k ∈ l then 1 else 0 := by
  by_cases hk : k ∈ l
  · rw [if_pos hk, ← count_beq_bridge, List.count_dedup, if_pos hk]
  · rw [if_neg hk, ← count_beq_bridge, List.count_dedup, if_neg hk]

theorem filter_key_eq_count (ks : List Key) (k : Key) :
    (ks.filter (fun j => j = k)).length = ks.count k := by
  rw [show ks.count k = ks.countP (fun j => j == k) from rfl,
    List.countP_eq_length_filter]
  exact congrArg List.length
    (List.filter_congr (fun j _ => by by_cases h : j = k <;> simp [h]))

/-- C2: pass 2 emits exactly one output row per distinct composite key
present in the CDISC index (built from successfully mapped rows only),
regardless of duplicate raw rows; each row carries the CDISC count for
its key, and membership in the DB index decides status and DB count. -/
theorem pass2_one_row_per_key (db cdisc : List Row) :
    (cdisc_key_set cdisc).Nodup ∧
    (∀ k : Key, k ∈ cdisc_key_set cdisc ↔ ∃ r ∈ cdisc_ok cdisc, cdiscKey r = k) ∧
    (∀ k : Key, ((cdisc_to_db_rows db cdisc).filter (fun p => pass2Key p = k)).length
        = if k ∈ cdisc_key_set cdisc then 1 else 0) ∧
    (∀ k ∈ cdisc_key_set cdisc,
      pass2Row db cdisc k ∈ cdisc_to_db_rows db cdisc ∧
      (pass2Row db cdisc k).cdiscRowCountForKey = cdisc_counts cdisc k ∧
      (k ∈ db_key_set db →
        (pass2Row db cdisc k).status = "AVAILABLE_IN_DB" ∧
        (pass2Row db cdisc k).dbRowCountForKey = db_counts db k) ∧
      (k ∉ db_key_set db →
        (pass2Row db cdisc k).status = "MISSING_IN_DB" ∧
        (pass2Row db cdisc k).dbRowCountForKey = 0)) := by
  refine ⟨List.nodup_dedup _, ?_, ?_, ?_⟩
  · intro k
    rw [cdisc_key_set, List.mem_dedup]
    exact List.mem_map
  · intro k
    rw [cdisc_to_db_rows, List.filter_map, List.length_map]
    have hcong : (cdisc_key_set cdisc).filter
        ((fun p => decide (pass2Key p = k)) ∘ pass2Row db cdisc)
        = (cdisc_key_set cdisc).filter (fun j => j = k) := by
      refine List.filter_congr ?_
      intro j _
      simp [Function.comp, pass2Key_pass2Row db cdisc j]
    rw [hcong, filter_key_eq_count, cdisc_key_set, count_dedup_key]
    by_cases hk : k ∈ (cdisc_ok cdisc).map cdiscKey
    · rw [if_pos hk, if_pos (by rwa [List.mem_dedup])]
    · rw [if_neg hk, if_neg (by rwa [List.mem_dedup])]
  · intro k hk
    refine ⟨?_, ?_, fun hm => ?_, fun hm => ?_⟩
    · rw [cdisc_to_db_rows]
      exact List.mem_map.mpr ⟨k, hk, rfl⟩
    · simp only [pass2Row]
      split <;> rfl
    · simp [pass2Row, hm]
    · simp [pass2Row, hm]

/-- C2 witness: on concrete data the duplicated CDISC-side key yields one
pass-2 row, found in the DB with its count. -/
theorem pass2_one_row_per_key_witness :
    ((cdisc_to_db_rows exDb exCdisc).filter (fun p => pass2Key p = exKey)).length = 1 ∧
    (pass2Row exDb exCdisc exKey).status = "AVAILABLE_IN_DB" ∧
    (pass2Row exDb exCdisc exKey).dbRowCountForKey = db_counts exDb exKey :=
  have h := pass2_one_row_per_key exDb exCdisc
  ⟨(h.2.2.1 exKey).trans (by decide),
   ((h.2.2.2 exKey (by decide)).2.2.1 (by decide)).1,
   ((h.2.2.2 exKey (by decide)).2.2.1 (by decide)).2⟩

/-- C9: for every distinct key k of the CDISC index, the number of pass-1
output rows whose composite key is k equals the DB index count for k
(which is 0 when no DB record has key k), and that number is exactly the
DB_ROW_COUNT_FOR_KEY attached to k's pass-2 output row. -/
theorem pass1_count_matches_db_index (db cdisc : List Row) (k : Key)
    (h : k ∈ cdisc_key_set cdisc) :
    ((db_to_cdisc_rows db cdisc).filter (fun o => dbKey o.row = k)).length
      = db_counts db k ∧
    (pass2Row db cdisc k).dbRowCountForKey = db_counts db k ∧
    pass2Row db cdisc k ∈ cdisc_to_db_rows db cdisc := by
  refine ⟨?_, ?_, ?_⟩
  · rw [db_to_cdisc_rows, List.filter_map, List.length_map]
    have hcong : db.filter ((fun o => decide (dbKey o.row = k)) ∘ pass1Row cdisc)
        = db.filter (fun r => dbKey r = k) := by
      refine List.filter_congr ?_
      intro r _
      simp [Function.comp, pass1Row_row cdisc r]
    rw [hcong, db_counts,
      show (db.map dbKey).count k = (db.map dbKey).countP (fun j => j == k) from rfl,
      List.countP_map, List.countP_eq_length_filter]
    exact congrArg List.length
      (List.filter_congr (fun r _ => by by_cases hrk : dbKey r = k <;> simp [hrk]))
  · by_cases hm : k ∈ db_key_set db
    · simp [pass2Row, hm]
    · have hz : db_counts db k = 0 := by
        rw [db_counts, List.count_eq_zero]
        rwa [db_key_set, List.mem_dedup] at hm
      simp [pass2Row, hm, hz]
  · rw [cdisc_to_db_rows]
    exact List.mem_map.mpr ⟨k, h, rfl⟩

/-- C9 witness: evaluated at the concrete shared key. -/
theorem pass1_count_matches_db_index_witness :
    ((db_to_cdisc_rows exDb exCdisc).filter (fun o => dbKey o.row = exKey)).length
      = db_counts exDb exKey ∧
    (pass2Row exDb exCdisc exKey).dbRowCountForKey = db_counts exDb exKey ∧
    pass2Row exDb exCdisc exKey ∈ cdisc_to_db_rows exDb exCdisc :=
  pass1_count_matches_db_index exDb exCdisc exKey (by decide)

/-- C10: in pass-1 output the attached CDISC count is 0 exactly when the
status is MISSING_IN_CDISC (and at least 1 when AVAILABLE_IN_CDISC); in
pass-2 output the DB count is 0 exactly when the status is MISSING_IN_DB,
and the CDISC count is always at least 1. -/
theorem zero_count_iff_missing (db cdisc : List Row) :
    (∀ o ∈ db_to_cdisc_rows db cdisc,
      (o.cdiscRowCountForKey = 0 ↔ o.status = "MISSING_IN_CDISC") ∧
      (o.status = "AVAILABLE_IN_CDISC" → 1 ≤ o.cdiscRowCountForKey)) ∧
    (∀ p ∈ cdisc_to_db_rows db cdisc,
      (p.dbRowCountForKey = 0 ↔ p.status = "MISSING_IN_DB") ∧
      1 ≤ p.cdiscRowCountForKey) := by
  constructor
  · intro o ho
    rw [db_to_cdisc_rows, List.mem_map] at ho
    obtain ⟨r, _, e⟩ := ho
    subst e
    by_cases hm : dbKey r ∈ cdisc_key_set cdisc
    · have hpos : 0 < cdisc_counts cdisc (dbKey r) := by
        rw [cdisc_counts, List.count_pos_iff]
        rwa [cdisc_key_set, List.mem_dedup] at hm
      simp only [pass1Row, if_pos hm]
      refine ⟨⟨fun hz => absurd hz (by omega), fun hs => absurd hs (by decide)⟩, fun _ => hpos⟩
    · simp only [pass1Row, if_neg hm]
      exact ⟨by decide, by decide⟩
  · intro p hp
    rw [cdisc_to_db_rows, List.mem_map] at hp
    obtain ⟨k, hk, e⟩ := hp
    subst e
    have hpos : 0 < cdisc_counts cdisc k := by
      rw [cdisc_counts, List.count_pos_iff]
      rwa [cdisc_key_set, List.mem_dedup] at hk
    by_cases hm : k ∈ db_key_set db
    · have hdbpos : 0 < db_counts db k := by
        rw [db_counts, List.count_pos_iff]
        rwa [db_key_set, List.mem_dedup] at hm
      simp only [pass2Row, if_pos hm]
      exact ⟨⟨fun hz => absurd hz (by omega), fun hs => absurd hs (by decide)⟩, hpos⟩
    · simp only [pass2Row, if_neg hm]
      exact ⟨by decide, hpos⟩

/-- C10 witness: a DB row missing in CDISC has count 0 iff its status
says so, and a concrete pass-2 row has CDISC count at least 1. -/
theorem zero_count_iff_missing_witness :
    ((pass1Row exCdisc exR3).cdiscRowCountForKey = 0 ↔
      (pass1Row exCdisc exR3).status = "MISSING_IN_CDISC") ∧
    1 ≤ (pass2Row exDb exCdisc exKey).cdiscRowCountForKey :=
  ⟨((zero_count_iff_missing exDb exCdisc).1 (pass1Row exCdisc exR3) (by decide)).1,
   ((zero_count_iff_missing exDb exCdisc).2 (pass2Row exDb exCdisc exKey) (by decide)).2⟩

/-- C6: KeyIndex invariant: the counts of each dataset's KeyIndex sum to
the number of records that contribute to it (all rows for the DB dataset,
only successfully mapped rows for the CDISC dataset), and the counts are
independent of the order in which records are accumulated. -/
theorem key_index_sum_and_order (db cdisc db2 cdisc2 : List Row) :
    ((db_key_set db).map (db_counts db)).sum = db.length ∧
    ((cdisc_key_set cdisc).map (cdisc_counts cdisc)).sum = (cdisc_ok cdisc).length ∧
    (db.Perm db2 → ∀ k, db_counts db k = db_counts db2 k) ∧
    (cdisc.Perm cdisc2 → ∀ k, cdisc_counts cdisc k = cdisc_counts cdisc2 k) := by
  refine ⟨?_, ?_, fun h k => ?_, fun h k => ?_⟩
  · rw [db_key_set,
      show db_counts db = fun k => (db.map dbKey).count k from rfl,
      show (fun k => (db.map dbKey).count k)
        = fun k => @List.count Key instBEqOfDecidableEq k (db.map dbKey) from
        funext fun k => (count_beq_bridge (db.map dbKey) k).symm,
      List.sum_map_count_dedup_eq_length, List.length_map]
  · rw [cdisc_key_set,
      show cdisc_counts cdisc = fun k => ((cdisc_ok cdisc).map cdiscKey).count k from rfl,
      show (fun k => ((cdisc_ok cdisc).map cdiscKey).count k)
        = fun k => @List.count Key instBEqOfDecidableEq k ((cdisc_ok cdisc).map cdiscKey) from
        funext fun k => (count_beq_bridge ((cdisc_ok cdisc).map cdiscKey) k).symm,
      List.sum_map_count_dedup_eq_length, List.length_map]
  · rw [db_counts, db_counts, ← count_beq_bridge, ← count_beq_bridge]
    exact (h.map dbKey).count_eq k
  · rw [cdisc_counts, cdisc_counts, ← count_beq_bridge, ← count_beq_bridge]
    exact ((h.filter _).map cdiscKey).count_eq k

/-- C6 witness: a concrete sum and a concrete permutation of the DB. -/
theorem key_index_sum_and_order_witness :
    ((db_key_set exDb).map (db_counts exDb)).sum = exDb.length ∧
    db_counts [exR1, exR3] exKey = db_counts [exR3, exR1] exKey :=
  ⟨(key_index_sum_and_order exDb exCdisc exDb exCdisc).1,
   (key_index_sum_and_order [exR1, exR3] exCdisc [exR3, exR1] exCdisc).2.2.1
     (List.Perm.swap exR3 exR1 []) exKey⟩

theorem checkCols_ok (dbT cdiscT : Table) (cols : List String)
    (h : ∀ col ∈ cols, col ∈ dbT.columns ∧ col ∈ cdiscT.columns) :
    checkCols dbT cdiscT cols = Except.ok () := by
  induction cols with
  | nil => rfl
  | cons c rest ih =>
    have hc := h c (by simp)
    simp only [checkCols]
    rw [if_pos hc.1, if_pos hc.2]
    exact ih fun col hcol => h col (List.mem_cons_of_mem c hcol)

theorem main_ok_of_checkCols (dbT cdiscT : Table)
    (h : checkCols dbT cdiscT requiredCols = Except.ok ()) :
    main dbT cdiscT = Except.ok
      { pass1Out := db_to_cdisc_rows dbT.rows cdiscT.rows,
        pass2Out := cdisc_to_db_rows dbT.rows cdiscT.rows,
        warningsOut := warnings cdiscT.rows } := by
  rw [main, h]

theorem main_error_of_checkCols (dbT cdiscT : Table) (e : String)
    (h : checkCols dbT cdiscT requiredCols = Except.error e) :
    main dbT cdiscT = Except.error e := by
  rw [main, h]

/-- C7: a CDISC record whose normalized short code is unmapped is excluded
from the CDISC KeyIndex and from all comparison output; the distinct
unmapped codes form a deduplicated set reported in sorted order; exactly
one warning entry is emitted per run and only when that set is non-empty;
unmapped codes never abort the run (with valid schema the run completes). -/
theorem unmapped_codes_handling (dbT cdiscT : Table) :
    (∀ r ∈ cdiscT.rows, mapCategory (norm r.qscat) = "" → r ∉ cdisc_ok cdiscT.rows) ∧
    (∀ k ∈ cdisc_key_set cdiscT.rows, k.2.2 ≠ "") ∧
    (missing_map cdiscT.rows).Nodup ∧
    (∀ s : String, s ∈ missing_map cdiscT.rows ↔
      ((∃ r ∈ cdiscT.rows, norm r.qscat = s) ∧ mapCategory s = "")) ∧
    List.Sorted (fun a b => a ≤ b)
      (List.insertionSort (fun a b => a ≤ b) (missing_map cdiscT.rows)) ∧
    (List.insertionSort (fun a b => a ≤ b) (missing_map cdiscT.rows)).Perm
      (missing_map cdiscT.rows) ∧
    (warnings cdiscT.rows).length = (if missing_map cdiscT.rows = [] then 0 else 1) ∧
    ((∀ col ∈ requiredCols, col ∈ dbT.columns ∧ col ∈ cdiscT.columns) →
      main dbT cdiscT = Except.ok
        { pass1Out := db_to_cdisc_rows dbT.rows cdiscT.rows,
          pass2Out := cdisc_to_db_rows dbT.rows cdiscT.rows,
          warningsOut := warnings cdiscT.rows }) := by
  refine ⟨?_, ?_, List.nodup_dedup _, ?_, List.sorted_insertionSort _ _,
    List.perm_insertionSort _ _, ?_, ?_⟩
  · intro r _ he hmem
    rw [cdisc_ok, List.mem_filter] at hmem
    simp [he] at hmem
  · intro k hk
    rw [cdisc_key_set, List.mem_dedup, List.mem_map] at hk
    obtain ⟨r, hr, rfl⟩ := hk
    rw [cdisc_ok, List.mem_filter] at hr
    simpa [cdiscKey] using hr.2
  · intro s
    rw [missing_map, List.mem_dedup, List.mem_filter, List.mem_map]
    simp
  · by_cases hm : missing_map cdiscT.rows = []
    · simp [warnings, hm]
    · simp [warnings, hm]
  · intro h
    exact main_ok_of_checkCols dbT cdiscT (checkCols_ok dbT cdiscT requiredCols h)

/-- C7 witness: a concrete unmapped CDISC row is excluded, exactly one
warning is emitted, and the run with valid schema completes. -/
theorem unmapped_codes_handling_witness :
    exC2 ∉ cdisc_ok exCdiscTab.rows ∧
    (warnings exCdiscTab.rows).length = 1 ∧
    main exDbTab exCdiscTab = Except.ok
      { pass1Out := db_to_cdisc_rows exDbTab.rows exCdiscTab.rows,
        pass2Out := cdisc_to_db_rows exDbTab.rows exCdiscTab.rows,
        warningsOut := warnings exCdiscTab.rows } :=
  have h := unmapped_codes_handling exDbTab exCdiscTab
  ⟨h.1 exC2 (by decide) (by decide),
   (h.2.2.2.2.2.2.1).trans (by decide),
   h.2.2.2.2.2.2.2 (by decide)⟩

theorem checkCols_error (dbT cdiscT : Table) (cols : List String)
    (h : ∃ col ∈ cols, col ∉ dbT.columns ∨ col ∉ cdiscT.columns) :
    ∃ col ∈ cols,
      (col ∉ dbT.columns ∧ checkCols dbT cdiscT cols = Except.error (dbMissingMsg col)) ∨
      (col ∈ dbT.columns ∧ col ∉ cdiscT.columns ∧
        checkCols dbT cdiscT cols = Except.error (cdiscMissingMsg col)) := by
  induction cols with
  | nil => obtain ⟨c, hc, _⟩ := h; simp at hc
  | cons c rest ih =>
    by_cases hdb : c ∈ dbT.columns
    · by_cases hcd : c ∈ cdiscT.columns
      · have hrest : ∃ col ∈ rest, col ∉ dbT.columns ∨ col ∉ cdiscT.columns := by
          obtain ⟨col, hcol, hor⟩ := h
          rcases List.mem_cons.mp hcol with hce | hmem
          · subst hce
            rcases hor with h1 | h2
            · exact absurd hdb h1
            · exact absurd hcd h2
          · exact ⟨col, hmem, hor⟩
        obtain ⟨col, hcol, hres⟩ := ih hrest
        have hstep : checkCols dbT cdiscT (c :: rest) = checkCols dbT cdiscT rest := by
          simp only [checkCols]
          rw [if_pos hdb, if_pos hcd]
        exact ⟨col, List.mem_cons_of_mem c hcol, by rwa [hstep]⟩
      · refine ⟨c, by simp, Or.inr ⟨hdb, hcd, ?_⟩⟩
        simp only [checkCols]
        rw [if_pos hdb, if_neg hcd]
    · refine ⟨c, by simp, Or.inl ⟨hdb, ?_⟩⟩
      simp only [checkCols]
      rw [if_neg hdb]

/-- C8: a required column (USUBJID, VISIT, QSCAT) absent from either
input table aborts the run with an error naming the column and the file,
before any reconciliation output exists; with all required columns
present the run completes and returns its outputs (exit zero), even when
unmapped codes exist. -/
theorem schema_validation_gate (dbT cdiscT : Table) :
    ((∃ col ∈ requiredCols, col ∉ dbT.columns ∨ col ∉ cdiscT.columns) →
      ∃ col ∈ requiredCols,
        (col ∉ dbT.columns ∧ main dbT cdiscT = Except.error (dbMissingMsg col)) ∨
        (col ∈ dbT.columns ∧ col ∉ cdiscT.columns ∧
          main dbT cdiscT = Except.error (cdiscMissingMsg col))) ∧
    ((∀ col ∈ requiredCols, col ∈ dbT.columns ∧ col ∈ cdiscT.columns) →
      main dbT cdiscT = Except.ok
        { pass1Out := db_to_cdisc_rows dbT.rows cdiscT.rows,
          pass2Out := cdisc_to_db_rows dbT.rows cdiscT.rows,
          warningsOut := warnings cdiscT.rows }) := by
  constructor
  · intro h
    obtain ⟨col, hcol, hres⟩ := checkCols_error dbT cdiscT requiredCols h
    refine ⟨col, hcol, ?_⟩
    rcases hres with ⟨h1, h2⟩ | ⟨h1, h2, h3⟩
    · exact Or.inl ⟨h1, main_error_of_checkCols dbT cdiscT _ h2⟩
    · exact Or.inr ⟨h1, h2, main_error_of_checkCols dbT cdiscT _ h3⟩
  · intro h
    exact main_ok_of_checkCols dbT cdiscT (checkCols_ok dbT cdiscT requiredCols h)

/-- C8 witness: a table lacking VISIT aborts with the naming error; the
valid tables complete even though an unmapped code exists. -/
theorem schema_validation_gate_witness :
    (∃ col ∈ requiredCols,
      (col ∉ exBadTab.columns ∧ main exBadTab exCdiscTab = Except.error (dbMissingMsg col)) ∨
      (col ∈ exBadTab.columns ∧ col ∉ exCdiscTab.columns ∧
        main exBadTab exCdiscTab = Except.error (cdiscMissingMsg col))) ∧
    main exDbTab exCdiscTab = Except.ok
      { pass1Out := db_to_cdisc_rows exDbTab.rows exCdiscTab.rows,
        pass2Out := cdisc_to_db_rows exDbTab.rows exCdiscTab.rows,
        warningsOut := warnings exCdiscTab.rows } :=
  ⟨(schema_validation_gate exBadTab exCdiscTab).1 (by decide),
   (schema_validation_gate exDbTab exCdiscTab).2 (by decide)⟩

end CompareRecords
